import Mathlib

/-!
Verification of the quote/sizing and diagnostics logic of the Polymarket
CLI wrapper (scripts/poly_wrapper.py).  Python floats are modelled as
exact rationals, Python exceptions as `Except`, and the stateful
exchange-client interactions as explicit state passing.  Line numbers in
the doc comments refer to scripts/poly_wrapper.py.
-/

/-- One price level of an order book: the book entries read by the
wrapper carry a `price` and a `size` (floats, modelled as `ℚ`). -/
structure Level where
  price : ℚ
  size : ℚ
deriving DecidableEq

/-- Order book snapshot, restricted to the fields `cmd_buy_max` and
`_best_bid_ask` read: `bids`, `asks` and `min_order_size`
(line 328 reads `float(book.min_order_size or 0)`, so an absent minimum
is modelled as `0`).  `tick_size` and `last_trade_price` are never read
by the sizing logic and are omitted. -/
structure OrderBook where
  bids : List Level
  asks : List Level
  minOrderSize : ℚ
deriving DecidableEq

/-- The fold step of `_best_order` (lines 96-99): CPython's `max`/`min`
scan left to right and replace the current best only on a strict
improvement of the key, so ties keep the earliest element.
`better y acc` says whether a later key `y` strictly improves on the
current best key `acc`. -/
def bstep (better : ℚ → ℚ → Bool) (acc y : Level) : Level :=
  if better y.price acc.price then y else acc

/-- Lines 96-99: `_best_order(orders, best_fn)` keyed on the level price,
with `best_fn` either `max` (bids) or `min` (asks); `None` on an empty
list. -/
def best_order (orders : List Level) (better : ℚ → ℚ → Bool) : Option Level :=
  match orders with
  | [] => none
  | x :: xs => some (xs.foldl (bstep better) x)

/-- Strict improvement for the bid side (Python `max`): a new key wins
iff it is strictly greater. -/
def bidBetter (a b : ℚ) : Bool := decide (b < a)

/-- Strict improvement for the ask side (Python `min`): a new key wins
iff it is strictly smaller. -/
def askBetter (a b : ℚ) : Bool := decide (a < b)

/-- Lines 102-105: `_best_bid_ask(book)` returns the pair
`(best bid, best ask)`. -/
def best_bid_ask (book : OrderBook) : Option Level × Option Level :=
  (best_order book.bids bidBetter, best_order book.asks askBetter)

/-- Failure modes of the sizing path of `cmd_buy_max` (each `raise` in
lines 316-346, plus Python's `ZeroDivisionError` at line 329). -/
inductive SizingError where
  | noLiquidity
  | invalidMaxUsd
  | divisionByZero
  | budgetTooLowForMinimumSize (minCost price : ℚ)
  | notionalBelowMinimum (notional : ℚ)
deriving DecidableEq

/-- The sized order produced by the sizing path: the effective price, the
final (rounded) size, and whether the order would cross the book. -/
structure SizedOrder where
  price : ℚ
  size : ℚ
  isMarketable : Bool
deriving DecidableEq

/-- Round-half-to-even to an integer: the rounding CPython's `round`
applies to the value of its argument. -/
def rhe (q : ℚ) : ℤ :=
  if q - ⌊q⌋ < 1/2 then ⌊q⌋
  else if (1 : ℚ)/2 < q - ⌊q⌋ then ⌊q⌋ + 1
  else if ⌊q⌋ % 2 = 0 then ⌊q⌋ else ⌊q⌋ + 1

/-- Python `round(size, 6)` (line 362): round to the nearest multiple of
`1/1000000`, ties to the even multiple. -/
def round6 (x : ℚ) : ℚ := (rhe (x * 1000000) : ℚ) / 1000000

/-- Lines 318-322: the effective price is the `--price` argument when
given, otherwise the best-ask price; with no limit price and no asks,
`cmd_buy_max` raises "No asks available for this token." -/
def effectivePrice (book : OrderBook) (limitPrice : Option ℚ) : Except SizingError ℚ :=
  match limitPrice with
  | some p => .ok p
  | none =>
    match best_order book.asks askBetter with
    | some a => .ok a.price
    | none => .error .noLiquidity

/-- Line 341: `is_marketable = bool(best_ask) and price >= float(best_ask.price)`. -/
def is_marketable (book : OrderBook) (price : ℚ) : Bool :=
  match best_order book.asks askBetter with
  | some a => decide (a.price ≤ price)
  | none => false

/-- The size before rounding (lines 328-338): `cap / price`, lifted to
`min_order_size` when the raw size falls below a positive minimum (the
branch that does not raise). -/
def preRoundSize (book : OrderBook) (cap price : ℚ) : ℚ :=
  if 0 < book.minOrderSize ∧ cap / price < book.minOrderSize then book.minOrderSize
  else cap / price

/-- Lines 340-346 and 362: the marketable-notional check followed by the
final rounding, shared by both non-raising exits of the minimum-size
branch. -/
def finishOrder (book : OrderBook) (price size : ℚ) : Except SizingError SizedOrder :=
  if is_marketable book price ∧ price * size < 1 then
    .error (.notionalBelowMinimum (price * size))
  else .ok ⟨price, round6 size, is_marketable book price⟩

/-- Lines 324-346 and 362 of `cmd_buy_max`, after the effective price is
known: validate `max_usd`, divide (Python raises `ZeroDivisionError` on a
zero price at line 329), apply the minimum-size branch, then run the
notional check and the rounding. -/
def sizeWithPrice (book : OrderBook) (cap price : ℚ) : Except SizingError SizedOrder :=
  if cap ≤ 0 then .error .invalidMaxUsd
  else if price = 0 then .error .divisionByZero
  else if 0 < book.minOrderSize ∧ cap / price < book.minOrderSize then
    if book.minOrderSize * price ≤ cap then finishOrder book price book.minOrderSize
    else .error (.budgetTooLowForMinimumSize (book.minOrderSize * price) price)
  else finishOrder book price (cap / price)

/-- The sizing engine of `cmd_buy_max` (the spec calls it `sizeByBudget`):
lines 316-346 and 362, with the order-book fetch, the preflight and the
order posting factored out. -/
def sizeByBudget (book : OrderBook) (cap : ℚ) (limitPrice : Option ℚ) :
    Except SizingError SizedOrder :=
  match effectivePrice book limitPrice with
  | .error e => .error e
  | .ok price => sizeWithPrice book cap price

/-- Off-chain balance/allowance snapshot as returned by
`get_balance_allowance`: the collateral balance plus the allowance values
of the spender map (the spender keys are never read by the logic verified
here, only the values). -/
structure BalanceAllowance where
  balance : ℚ
  allowances : List ℚ
deriving DecidableEq

/-- Lines 115-118: `_max_allowance` is `0.0` on an empty or absent map,
otherwise the maximum allowance value. -/
def max_allowance (allowances : List ℚ) : ℚ :=
  match allowances with
  | [] => 0
  | v :: vs => vs.foldl max v

/-- Lines 223-231 and 348-355: the preflight succeeds when the
balance/allowance fetch did not raise (`none` models a raising fetch) and
both the balance and the maximal allowance are positive; in every other
case the `except` arm prints the warning. -/
def preflight_ok (fetch : Option BalanceAllowance) : Bool :=
  match fetch with
  | none => false
  | some b => decide (¬(b.balance ≤ 0 ∨ max_allowance b.allowances ≤ 0))

/-- Observable effects of the buy command bodies, in program order. -/
inductive Effect where
  | preflightWarn
  | createOrder (price size : ℚ)
  | postOrder
deriving DecidableEq

/-- Lines 216-247 (`cmd_buy`): effect trace of the body after argument
parsing — an optional preflight warning on standard error, then order
creation and posting. -/
def cmd_buy (fetch : Option BalanceAllowance) (price size : ℚ) : List Effect :=
  (if preflight_ok fetch then [] else [Effect.preflightWarn]) ++
    [Effect.createOrder price size, Effect.postOrder]

/-- Lines 313-373 (`cmd_buy_max`): effect trace — when the sizing path
raises, the command only prints an error (the empty trace here);
otherwise the preflight runs (warning on failure, lines 348-360) and the
sized order is created and posted. -/
def cmd_buy_max (book : OrderBook) (cap : ℚ) (limitPrice : Option ℚ)
    (fetch : Option BalanceAllowance) : List Effect :=
  match sizeByBudget book cap limitPrice with
  | .error _ => []
  | .ok o =>
    (if preflight_ok fetch then [] else [Effect.preflightWarn]) ++
      [Effect.createOrder o.price o.size, Effect.postOrder]

/-- The three remediation recommendations `cmd_diagnose --fix` can emit
(lines 474-490), abstracted from their message text. -/
inductive Rec where
  | fundProxy
  | approveUsdc
  | refreshStale
deriving DecidableEq

/-- The matching next-step entries (lines 477-492). -/
inductive Step where
  | fundStep
  | approveStep
  | refreshStep
deriving DecidableEq

/-- Python `max` over a nonempty list of on-chain allowance integers
(line 489); the `0` default is never reached under the nonemptiness
guard. -/
def intMax : List ℤ → ℤ
  | [] => 0
  | v :: vs => vs.foldl max v

/-- Lines 468-495: the recommendation rules, a pure function of the
fetched snapshot, the `--onchain` flag and the on-chain lookup results
(`none` models a lookup that errored and was recorded as a string). -/
def recommendationsOf (bal : BalanceAllowance) (onchain : Bool)
    (onchainVals : List (Option ℤ)) : List Rec × List Step :=
  let r1 : List Rec := if bal.balance ≤ 0 then [Rec.fundProxy] else []
  let s1 : List Step := if bal.balance ≤ 0 then [Step.fundStep] else []
  let r2 : List Rec := if max_allowance bal.allowances ≤ 0 then [Rec.approveUsdc] else []
  let s2 : List Step := if max_allowance bal.allowances ≤ 0 then [Step.approveStep] else []
  let onVals := onchainVals.filterMap id
  let r3 : List Rec :=
    if onchain ∧ onVals ≠ [] ∧ max_allowance bal.allowances ≤ 0 ∧ 0 < intMax onVals then
      [Rec.refreshStale]
    else []
  let s3 : List Step :=
    if onchain ∧ onVals ≠ [] ∧ max_allowance bal.allowances ≤ 0 ∧ 0 < intMax onVals then
      [Step.refreshStep]
    else []
  (r1 ++ r2 ++ r3, s1 ++ s2 ++ s3)

/-- State threaded through `cmd_diagnose`: the off-chain snapshot the
next balance fetch returns, the snapshot a successful refresh call
installs server-side, and whether that refresh call succeeds (its
exception is swallowed at lines 450-451). -/
structure DiagWorld where
  offchain : BalanceAllowance
  refreshed : BalanceAllowance
  refreshSucceeds : Bool
deriving DecidableEq

/-- Lines 447-452: under `--fix` the refresh is attempted first and the
balance/allowance snapshot is fetched afterwards, so a successful refresh
changes what the fetch returns. -/
def fetched_bal (fix : Bool) (w : DiagWorld) : BalanceAllowance :=
  if fix ∧ w.refreshSucceeds then w.refreshed else w.offchain

/-- The diagnose-report fields the claims observe: the fetched snapshot
and the optional `recommendations` / `next_steps` lists (the keys are
absent without `--fix`). -/
structure DiagReport where
  balanceAllowance : BalanceAllowance
  recommendations : Option (List Rec)
  nextSteps : Option (List Step)
deriving DecidableEq

/-- Lines 435-499 (`cmd_diagnose`), restricted to the observed fields:
refresh-then-fetch under `--fix` (lines 447-452), and recommendation
rules evaluated only under `--fix` (lines 468-495). -/
def cmd_diagnose (fix onchain : Bool) (w : DiagWorld)
    (onchainVals : List (Option ℤ)) : DiagReport :=
  let bal := fetched_bal fix w
  if fix then
    let rs := recommendationsOf bal onchain onchainVals
    ⟨bal, some rs.1, some rs.2⟩
  else ⟨bal, none, none⟩

/-- Invariant of the `_best_order` fold: the running best is the initial
accumulator or a scanned element, and no scanned key (nor the initial
key) strictly improves on it.  `better` must be irreflexive, asymmetric
and negatively transitive, as both `max`- and `min`-comparisons are. -/
theorem foldl_bstep_spec (better : ℚ → ℚ → Bool)
    (hirr : ∀ a, better a a = false)
    (hasym : ∀ a b, better a b = true → better b a = false)
    (htr : ∀ a b c, better a b = false → better b c = false → better a c = false) :
    ∀ (xs : List Level) (acc : Level),
      (xs.foldl (bstep better) acc = acc ∨ xs.foldl (bstep better) acc ∈ xs) ∧
      better acc.price (xs.foldl (bstep better) acc).price = false ∧
      ∀ y ∈ xs, better y.price (xs.foldl (bstep better) acc).price = false := by
  intro xs
  induction xs with
  | nil => exact fun acc => ⟨Or.inl rfl, hirr _, by intro y hy; cases hy⟩
  | cons z zs ih =>
    intro acc
    obtain ⟨hmem, hacc, hall⟩ := ih (bstep better acc z)
    simp only [List.foldl_cons]
    set r := zs.foldl (bstep better) (bstep better acc z) with hr
    have hcases : (better z.price acc.price = true ∧ bstep better acc z = z) ∨
        (better z.price acc.price = false ∧ bstep better acc z = acc) := by
      cases hz : better z.price acc.price
      · exact Or.inr ⟨rfl, by simp [bstep, hz]⟩
      · exact Or.inl ⟨rfl, by simp [bstep, hz]⟩
    refine ⟨?_, ?_, ?_⟩
    · rcases hmem with h | h
      · rcases hcases with ⟨_, hs⟩ | ⟨_, hs⟩
        · rw [h, hs]; exact Or.inr (List.mem_cons_self _ _)
        · rw [h, hs]; exact Or.inl rfl
      · exact Or.inr (List.mem_cons_of_mem _ h)
    · rcases hcases with ⟨hz, hs⟩ | ⟨hz, hs⟩
      · rw [hs] at hacc
        exact htr _ _ _ (hasym _ _ hz) hacc
      · rw [hs] at hacc
        exact hacc
    · intro y hy
      rcases List.mem_cons.mp hy with rfl | hy'
      · rcases hcases with ⟨hz, hs⟩ | ⟨hz, hs⟩
        · rw [hs] at hacc
          exact hacc
        · rw [hs] at hacc
          exact htr _ _ _ hz hacc
      · exact hall y hy'

theorem askBetter_irr : ∀ a, askBetter a a = false := by
  intro a; simp [askBetter]

theorem askBetter_asym : ∀ a b, askBetter a b = true → askBetter b a = false := by
  intro a b h; simp [askBetter] at h ⊢; linarith

theorem askBetter_negtr :
    ∀ a b c, askBetter a b = false → askBetter b c = false → askBetter a c = false := by
  intro a b c h1 h2; simp [askBetter] at h1 h2 ⊢; linarith

theorem bidBetter_irr : ∀ a, bidBetter a a = false := by
  intro a; simp [bidBetter]

theorem bidBetter_asym : ∀ a b, bidBetter a b = true → bidBetter b a = false := by
  intro a b h; simp [bidBetter] at h ⊢; linarith

theorem bidBetter_negtr :
    ∀ a b c, bidBetter a b = false → bidBetter b c = false → bidBetter a c = false := by
  intro a b c h1 h2; simp [bidBetter] at h1 h2 ⊢; linarith

theorem best_order_none_iff (orders : List Level) (better : ℚ → ℚ → Bool) :
    best_order orders better = none ↔ orders = [] := by
  cases orders <;> simp [best_order]

theorem best_order_extremal (better : ℚ → ℚ → Bool)
    (hirr : ∀ a, better a a = false)
    (hasym : ∀ a b, better a b = true → better b a = false)
    (htr : ∀ a b c, better a b = false → better b c = false → better a c = false)
    (orders : List Level) (l : Level) (h : best_order orders better = some l) :
    l ∈ orders ∧ ∀ y ∈ orders, better y.price l.price = false := by
  cases orders with
  | nil => simp [best_order] at h
  | cons x xs =>
    simp only [best_order, Option.some.injEq] at h
    obtain ⟨hmem, hacc, hall⟩ := foldl_bstep_spec better hirr hasym htr xs x
    subst h
    constructor
    · rcases hmem with h | h
      · rw [h]; exact List.mem_cons_self _ _
      · exact List.mem_cons_of_mem _ h
    · intro y hy
      rcases List.mem_cons.mp hy with rfl | hy'
      · exact hacc
      · exact hall y hy'

/-- C7: `best_bid_ask` returns `none` exactly for a side whose level list
is empty; a returned best ask is an element of the ask list whose price
is a lower bound of all ask prices, and a returned best bid is an element
of the bid list whose price is an upper bound of all bid prices. -/
theorem best_bid_ask_extremal (book : OrderBook) :
    ((best_bid_ask book).2 = none ↔ book.asks = []) ∧
    ((best_bid_ask book).1 = none ↔ book.bids = []) ∧
    (∀ l, (best_bid_ask book).2 = some l →
      l ∈ book.asks ∧ ∀ y ∈ book.asks, l.price ≤ y.price) ∧
    (∀ l, (best_bid_ask book).1 = some l →
      l ∈ book.bids ∧ ∀ y ∈ book.bids, y.price ≤ l.price) := by
  refine ⟨best_order_none_iff _ _, best_order_none_iff _ _, ?_, ?_⟩
  · intro l h
    obtain ⟨h1, h2⟩ :=
      best_order_extremal askBetter askBetter_irr askBetter_asym askBetter_negtr
        book.asks l h
    exact ⟨h1, fun y hy => by simpa [askBetter] using h2 y hy⟩
  · intro l h
    obtain ⟨h1, h2⟩ :=
      best_order_extremal bidBetter bidBetter_irr bidBetter_asym bidBetter_negtr
        book.bids l h
    exact ⟨h1, fun y hy => by simpa [bidBetter] using h2 y hy⟩

theorem best_bid_ask_extremal_witness :
    ((⟨4, 1⟩ : Level) ∈ (OrderBook.mk [⟨2, 1⟩, ⟨3, 1⟩] [⟨5, 1⟩, ⟨4, 1⟩] 0).asks ∧
      ∀ y ∈ (OrderBook.mk [⟨2, 1⟩, ⟨3, 1⟩] [⟨5, 1⟩, ⟨4, 1⟩] 0).asks,
        (⟨4, 1⟩ : Level).price ≤ y.price) ∧
    ((⟨3, 1⟩ : Level) ∈ (OrderBook.mk [⟨2, 1⟩, ⟨3, 1⟩] [⟨5, 1⟩, ⟨4, 1⟩] 0).bids ∧
      ∀ y ∈ (OrderBook.mk [⟨2, 1⟩, ⟨3, 1⟩] [⟨5, 1⟩, ⟨4, 1⟩] 0).bids,
        y.price ≤ (⟨3, 1⟩ : Level).price) :=
  ⟨(best_bid_ask_extremal (OrderBook.mk [⟨2, 1⟩, ⟨3, 1⟩] [⟨5, 1⟩, ⟨4, 1⟩] 0)).2.2.1
      ⟨4, 1⟩ (by norm_num [best_bid_ask, best_order, bstep, askBetter]),
    (best_bid_ask_extremal (OrderBook.mk [⟨2, 1⟩, ⟨3, 1⟩] [⟨5, 1⟩, ⟨4, 1⟩] 0)).2.2.2
      ⟨3, 1⟩ (by norm_num [best_bid_ask, best_order, bstep, bidBetter])⟩

theorem foldl_bstep_keep (better : ℚ → ℚ → Bool) :
    ∀ (xs : List Level) (acc : Level),
      (∀ y ∈ xs, better y.price acc.price = false) → xs.foldl (bstep better) acc = acc := by
  intro xs
  induction xs with
  | nil => intro acc _; rfl
  | cons z zs ih =>
    intro acc h
    simp only [List.foldl_cons]
    have hz : bstep better acc z = acc := by
      simp [bstep, h z (List.mem_cons_self _ _)]
    rw [hz]
    exact ih acc fun y hy => h y (List.mem_cons_of_mem _ hy)

theorem foldl_bstep_first (better : ℚ → ℚ → Bool) (m : Level) :
    ∀ (pre : List Level), (∀ y ∈ pre, better m.price y.price = true) →
    ∀ (post : List Level), (∀ y ∈ post, better y.price m.price = false) →
    ∀ (a : Level), better m.price a.price = true →
    (pre ++ m :: post).foldl (bstep better) a = m := by
  intro pre
  induction pre with
  | nil =>
    intro _ post hpost a ha
    simp only [List.nil_append, List.foldl_cons]
    have h1 : bstep better a m = m := by simp [bstep, ha]
    rw [h1]
    exact foldl_bstep_keep better post m hpost
  | cons p ps ih =>
    intro hpre post hpost a ha
    simp only [List.cons_append, List.foldl_cons]
    have hm : better m.price (bstep better a p).price = true := by
      unfold bstep
      split
      · exact hpre p (List.mem_cons_self _ _)
      · exact ha
    exact ih (fun y hy => hpre y (List.mem_cons_of_mem _ hy)) post hpost _ hm

theorem best_order_first (better : ℚ → ℚ → Bool) (pre post : List Level) (m : Level)
    (hpre : ∀ y ∈ pre, better m.price y.price = true)
    (hpost : ∀ y ∈ post, better y.price m.price = false) :
    best_order (pre ++ m :: post) better = some m := by
  cases pre with
  | nil =>
    simp only [List.nil_append, best_order, Option.some.injEq]
    exact foldl_bstep_keep better post m hpost
  | cons p ps =>
    simp only [List.cons_append, best_order, Option.some.injEq]
    exact foldl_bstep_first better m ps (fun y hy => hpre y (List.mem_cons_of_mem _ hy))
      post hpost p (hpre p (List.mem_cons_self _ _))

/-- C9: ties at the extreme price are broken deterministically in favour
of the first such level in the snapshot's input order: whenever a side
decomposes as `pre ++ m :: post` with every earlier level strictly worse
and every later level no better than `m`, `best_bid_ask` returns exactly
`m` for that side. -/
theorem best_bid_ask_first_tie (book : OrderBook) (pre post : List Level) (m : Level) :
    (book.asks = pre ++ m :: post →
      (∀ y ∈ pre, m.price < y.price) → (∀ y ∈ post, m.price ≤ y.price) →
      (best_bid_ask book).2 = some m) ∧
    (book.bids = pre ++ m :: post →
      (∀ y ∈ pre, y.price < m.price) → (∀ y ∈ post, y.price ≤ m.price) →
      (best_bid_ask book).1 = some m) := by
  constructor
  · intro hb hpre hpost
    show best_order book.asks askBetter = some m
    rw [hb]
    exact best_order_first askBetter pre post m
      (fun y hy => by simpa [askBetter] using hpre y hy)
      (fun y hy => by simpa [askBetter] using not_lt.mpr (hpost y hy))
  · intro hb hpre hpost
    show best_order book.bids bidBetter = some m
    rw [hb]
    exact best_order_first bidBetter pre post m
      (fun y hy => by simpa [bidBetter] using hpre y hy)
      (fun y hy => by simpa [bidBetter] using not_lt.mpr (hpost y hy))

theorem best_bid_ask_first_tie_witness :
    (best_bid_ask ⟨[⟨3, 1⟩, ⟨5, 2⟩, ⟨5, 4⟩], [⟨2, 1⟩, ⟨1, 7⟩, ⟨1, 9⟩], 0⟩).2 =
      some ⟨1, 7⟩ ∧
    (best_bid_ask ⟨[⟨3, 1⟩, ⟨5, 2⟩, ⟨5, 4⟩], [⟨2, 1⟩, ⟨1, 7⟩, ⟨1, 9⟩], 0⟩).1 =
      some ⟨5, 2⟩ :=
  ⟨(best_bid_ask_first_tie ⟨[⟨3, 1⟩, ⟨5, 2⟩, ⟨5, 4⟩], [⟨2, 1⟩, ⟨1, 7⟩, ⟨1, 9⟩], 0⟩
      [⟨2, 1⟩] [⟨1, 9⟩] ⟨1, 7⟩).1 rfl
      (by rintro y hy; rcases List.mem_singleton.mp hy with rfl; norm_num)
      (by rintro y hy; rcases List.mem_singleton.mp hy with rfl; norm_num),
    (best_bid_ask_first_tie ⟨[⟨3, 1⟩, ⟨5, 2⟩, ⟨5, 4⟩], [⟨2, 1⟩, ⟨1, 7⟩, ⟨1, 9⟩], 0⟩
      [⟨3, 1⟩] [⟨5, 4⟩] ⟨5, 2⟩).2 rfl
      (by rintro y hy; rcases List.mem_singleton.mp hy with rfl; norm_num)
      (by rintro y hy; rcases List.mem_singleton.mp hy with rfl; norm_num)⟩

/-- Round-half-to-even lands within half a unit of its argument. -/
theorem abs_rhe_sub (q : ℚ) : |(rhe q : ℚ) - q| ≤ 1/2 := by
  have h1 : (⌊q⌋ : ℚ) ≤ q := Int.floor_le q
  have h2 : q < ⌊q⌋ + 1 := Int.lt_floor_add_one q
  unfold rhe
  split_ifs with ha hb hc
  · rw [abs_le]; constructor <;> linarith
  · rw [abs_le]; constructor <;> push_cast <;> linarith
  · have hr : q - ⌊q⌋ = 1/2 := le_antisymm (not_lt.mp hb) (not_lt.mp ha)
    rw [abs_le]; constructor <;> linarith
  · have hr : q - ⌊q⌋ = 1/2 := le_antisymm (not_lt.mp hb) (not_lt.mp ha)
    rw [abs_le]; constructor <;> push_cast <;> linarith

theorem sizeByBudget_eq (book : OrderBook) (cap : ℚ) (lp : Option ℚ) (p : ℚ)
    (heff : effectivePrice book lp = .ok p) :
    sizeByBudget book cap lp = sizeWithPrice book cap p := by
  unfold sizeByBudget
  rw [heff]

theorem finishOrder_ok_size (book : OrderBook) (p s : ℚ) (o : SizedOrder)
    (h : finishOrder book p s = .ok o) :
    o = ⟨p, round6 s, is_marketable book p⟩ := by
  unfold finishOrder at h
  split_ifs at h
  exact (Except.ok.inj h).symm

theorem finishOrder_notional (book : OrderBook) (p s : ℚ)
    (h1 : is_marketable book p = true) (h2 : p * s < 1) :
    finishOrder book p s = .error (.notionalBelowMinimum (p * s)) := by
  unfold finishOrder
  rw [if_pos ⟨h1, h2⟩]

/-- C1: with a positive minimum order size, a positive budget and a
positive effective price, when the raw size `cap / p` falls below the
minimum the engine either uses the minimum as the size (when the minimum
cost fits the budget — in exact arithmetic this sub-case is vacuous,
since `cap / p < minOrderSize` already forces `minOrderSize * p > cap`)
or fails with the budget-too-low error carrying the minimum cost and the
price used. -/
theorem sizeByBudget_min_size_branch (book : OrderBook) (cap p : ℚ) (lp : Option ℚ)
    (hmin : 0 < book.minOrderSize) (hcap : 0 < cap) (hp : 0 < p)
    (heff : effectivePrice book lp = .ok p)
    (hraw : cap / p < book.minOrderSize) :
    (book.minOrderSize * p ≤ cap →
      ∃ o, sizeByBudget book cap lp = .ok o ∧ o.size = book.minOrderSize) ∧
    (¬book.minOrderSize * p ≤ cap →
      sizeByBudget book cap lp =
        .error (.budgetTooLowForMinimumSize (book.minOrderSize * p) p)) := by
  have hlt : cap < book.minOrderSize * p := (div_lt_iff₀ hp).mp hraw
  constructor
  · intro hle
    exact absurd hle (not_le.mpr hlt)
  · intro hgt
    rw [sizeByBudget_eq book cap lp p heff]
    unfold sizeWithPrice
    rw [if_neg (not_le.mpr hcap), if_neg hp.ne', if_pos ⟨hmin, hraw⟩, if_neg hgt]

theorem sizeByBudget_min_size_branch_witness :
    sizeByBudget ⟨[], [], 5⟩ (2/5) (some (1/2)) =
      .error (.budgetTooLowForMinimumSize (5 * (1/2)) (1/2)) :=
  (sizeByBudget_min_size_branch ⟨[], [], 5⟩ (2/5) (1/2) (some (1/2))
    (by norm_num) (by norm_num) (by norm_num) rfl (by norm_num)).2 (by norm_num)

/-- C2 counterexample: at budget `19/10000000` with limit price `1` the
computed size is `19/10000000` and the returned size is `2/1000000` (the
nearest multiple of `1/1000000`), while truncation toward zero — the
behaviour the claim asserts — would give `1/1000000`. -/
theorem sizeByBudget_round_not_floor :
    sizeByBudget ⟨[], [], 0⟩ (19/10000000) (some 1) = .ok ⟨1, 2/1000000, false⟩ ∧
    ((2 : ℚ)/1000000) ≠ (⌊(19/10000000 : ℚ) * 10^6⌋ : ℚ) / 10^6 := by
  constructor
  · norm_num [sizeByBudget, effectivePrice, sizeWithPrice, finishOrder, is_marketable,
      best_order, round6, rhe]
  · norm_num

/-- C2 amended: the size of a successfully sized order is the computed
(pre-rounding) size rounded to the NEAREST multiple of `1/1000000` (ties
to even, CPython `round`), not truncated toward zero: it is an integer
multiple of `1/1000000` lying within `1/2000000` of the computed size. -/
theorem sizeByBudget_rounds_to_nearest (book : OrderBook) (cap : ℚ) (lp : Option ℚ)
    (o : SizedOrder) (h : sizeByBudget book cap lp = .ok o) :
    ∃ p, effectivePrice book lp = .ok p ∧
      o.size = round6 (preRoundSize book cap p) ∧
      (∃ k : ℤ, o.size = (k : ℚ) / 1000000) ∧
      |o.size - preRoundSize book cap p| ≤ 1 / 2000000 := by
  cases heff : effectivePrice book lp with
  | error e =>
    have hE : sizeByBudget book cap lp = .error e := by
      unfold sizeByBudget
      rw [heff]
    rw [hE] at h
    exact absurd h (by simp)
  | ok p =>
    rw [sizeByBudget_eq book cap lp p heff] at h
    refine ⟨p, rfl, ?_⟩
    have hsz : o.size = round6 (preRoundSize book cap p) := by
      unfold sizeWithPrice at h
      split_ifs at h with h1 h2 h3 h4
      · have ho := finishOrder_ok_size book p book.minOrderSize o h
        subst ho
        show round6 book.minOrderSize = round6 (preRoundSize book cap p)
        unfold preRoundSize
        rw [if_pos h3]
      · have ho := finishOrder_ok_size book p (cap / p) o h
        subst ho
        show round6 (cap / p) = round6 (preRoundSize book cap p)
        unfold preRoundSize
        rw [if_neg h3]
    refine ⟨hsz, ⟨rhe (preRoundSize book cap p * 1000000), by rw [hsz]; rfl⟩, ?_⟩
    rw [hsz]
    set s := preRoundSize book cap p with hsdef
    have habs := abs_rhe_sub (s * 1000000)
    have heqn : round6 s - s = ((rhe (s * 1000000) : ℚ) - s * 1000000) / 1000000 := by
      unfold round6; ring
    have h6 : |((rhe (s * 1000000) : ℚ) - s * 1000000) / 1000000| =
        |(rhe (s * 1000000) : ℚ) - s * 1000000| / 1000000 := by
      rw [abs_div]
      norm_num
    rw [heqn, h6]
    calc |(rhe (s * 1000000) : ℚ) - s * 1000000| / 1000000
        ≤ (1/2) / 1000000 := by gcongr
      _ = 1 / 2000000 := by norm_num

theorem sizeByBudget_rounds_to_nearest_witness :
    ∃ p, effectivePrice ⟨[], [], 0⟩ (some (1/2)) = .ok p ∧
      (SizedOrder.mk (1/2) 2 false).size = round6 (preRoundSize ⟨[], [], 0⟩ 1 p) ∧
      (∃ k : ℤ, (SizedOrder.mk (1/2) 2 false).size = (k : ℚ) / 1000000) ∧
      |(SizedOrder.mk (1/2) 2 false).size - preRoundSize ⟨[], [], 0⟩ 1 p| ≤ 1 / 2000000 :=
  sizeByBudget_rounds_to_nearest ⟨[], [], 0⟩ 1 (some (1/2)) ⟨1/2, 2, false⟩
    (by norm_num [sizeByBudget, effectivePrice, sizeWithPrice, finishOrder, is_marketable,
      best_order, round6, rhe])

/-- C4 counterexample: with an empty book, no limit price and
`max_usd = 0`, the sizing path fails with the no-liquidity error, not the
invalid-argument error the claim asserts, because the effective price is
resolved before the budget check runs. -/
theorem sizeByBudget_no_asks_zero_cap :
    sizeByBudget ⟨[], [], 0⟩ 0 none = .error .noLiquidity ∧
    sizeByBudget ⟨[], [], 0⟩ 0 none ≠ .error .invalidMaxUsd := by
  have h : sizeByBudget ⟨[], [], 0⟩ 0 none = .error .noLiquidity := rfl
  refine ⟨h, ?_⟩
  rw [h]
  intro hcon
  simp at hcon

/-- C4 amended: with a non-positive budget the engine always fails, but
price resolution runs first: it reports the invalid-argument error
whenever an effective price exists, and the price-resolution error (no
liquidity) when no limit price is given and the book has no asks. -/
theorem sizeByBudget_nonpos_cap (book : OrderBook) (cap : ℚ) (lp : Option ℚ)
    (hcap : cap ≤ 0) :
    (∀ p, effectivePrice book lp = .ok p →
      sizeByBudget book cap lp = .error .invalidMaxUsd) ∧
    (∀ e, effectivePrice book lp = .error e → sizeByBudget book cap lp = .error e) := by
  constructor
  · intro p heff
    rw [sizeByBudget_eq book cap lp p heff]
    unfold sizeWithPrice
    rw [if_pos hcap]
  · intro e heff
    unfold sizeByBudget
    rw [heff]

theorem sizeByBudget_nonpos_cap_witness :
    sizeByBudget ⟨[], [⟨1, 1⟩], 0⟩ 0 none = .error .invalidMaxUsd :=
  (sizeByBudget_nonpos_cap ⟨[], [⟨1, 1⟩], 0⟩ 0 none le_rfl).1 1 rfl

/-- C5 counterexample: a negative limit price is not rejected: with
`--price -1`, budget `1` and no minimum, the sizing path returns a sized
order (of negative price and size) instead of failing. -/
theorem sizeByBudget_negative_limit :
    sizeByBudget ⟨[], [⟨1/2, 10⟩], 0⟩ 1 (some (-1)) = .ok ⟨-1, -1, false⟩ := by
  norm_num [sizeByBudget, effectivePrice, sizeWithPrice, finishOrder, is_marketable,
    best_order, bstep, round6, rhe]

/-- C5 amended: of the non-positive limit prices only `0` makes the
sizing path fail (Python's `ZeroDivisionError` at the raw-size division);
a negative limit price flows through, as the counterexample shows. -/
theorem sizeByBudget_zero_limit (book : OrderBook) (cap : ℚ) (hcap : 0 < cap) :
    sizeByBudget book cap (some 0) = .error .divisionByZero := by
  rw [sizeByBudget_eq book cap (some 0) 0 rfl]
  unfold sizeWithPrice
  rw [if_neg (not_le.mpr hcap), if_pos rfl]

theorem sizeByBudget_zero_limit_witness :
    sizeByBudget ⟨[], [], 0⟩ 1 (some 0) = .error .divisionByZero :=
  sizeByBudget_zero_limit ⟨[], [], 0⟩ 1 one_pos

/-- C6: the marketability flag is "an ask level exists and the effective
price is at least the best-ask price"; every returned order carries
exactly this flag, and whenever the flag holds and the notional
`price * size` of the computed size is below `1`, the engine fails with
the notional-below-minimum error instead of returning an order (given
the earlier checks pass: positive budget, nonzero price, and a
minimum-size branch that does not itself raise). -/
theorem sizeByBudget_marketable_notional (book : OrderBook) (cap p : ℚ) (lp : Option ℚ)
    (heff : effectivePrice book lp = .ok p) (hcap : 0 < cap) (hp : p ≠ 0)
    (hfits : 0 < book.minOrderSize ∧ cap / p < book.minOrderSize →
      book.minOrderSize * p ≤ cap) :
    (is_marketable book p = true ↔
      ∃ a, best_order book.asks askBetter = some a ∧ a.price ≤ p) ∧
    (∀ o, sizeByBudget book cap lp = .ok o → o.isMarketable = is_marketable book p) ∧
    (is_marketable book p = true → p * preRoundSize book cap p < 1 →
      sizeByBudget book cap lp =
        .error (.notionalBelowMinimum (p * preRoundSize book cap p))) := by
  refine ⟨?_, ?_, ?_⟩
  · unfold is_marketable
    cases best_order book.asks askBetter with
    | none => simp
    | some a => simp [decide_eq_true_iff]
  · intro o h
    rw [sizeByBudget_eq book cap lp p heff] at h
    unfold sizeWithPrice at h
    split_ifs at h with h1 h2 h3
    · have ho := finishOrder_ok_size book p book.minOrderSize o h
      subst ho
      rfl
    · have ho := finishOrder_ok_size book p (cap / p) o h
      subst ho
      rfl
  · intro hm hnot
    rw [sizeByBudget_eq book cap lp p heff]
    unfold sizeWithPrice
    rw [if_neg (not_le.mpr hcap), if_neg hp]
    by_cases h3 : 0 < book.minOrderSize ∧ cap / p < book.minOrderSize
    · have hs : preRoundSize book cap p = book.minOrderSize := by
        unfold preRoundSize
        rw [if_pos h3]
      rw [if_pos h3, if_pos (hfits h3), hs]
      rw [hs] at hnot
      exact finishOrder_notional book p book.minOrderSize hm hnot
    · have hs : preRoundSize book cap p = cap / p := by
        unfold preRoundSize
        rw [if_neg h3]
      rw [if_neg h3, hs]
      rw [hs] at hnot
      exact finishOrder_notional book p (cap / p) hm hnot

theorem sizeByBudget_marketable_notional_witness :
    sizeByBudget ⟨[], [⟨1/2, 10⟩], 0⟩ (1/2) (some (1/2)) =
      .error (.notionalBelowMinimum
        ((1/2) * preRoundSize ⟨[], [⟨1/2, 10⟩], 0⟩ (1/2) (1/2))) :=
  (sizeByBudget_marketable_notional ⟨[], [⟨1/2, 10⟩], 0⟩ (1/2) (1/2) (some (1/2))
    rfl (by norm_num) (by norm_num)
    (fun hc => absurd hc.1 (by norm_num))).2.2
    (by norm_num [is_marketable, best_order])
    (by norm_num [preRoundSize])

/-- C8: a failed preflight — the fetch raised, or it reported a
non-positive balance or a non-positive maximal allowance — only emits the
warning effect; both buy paths still create and post the order (for
`buy-max`, whenever the sizing succeeded). -/
theorem preflight_failure_nonblocking (fetch : Option BalanceAllowance)
    (price size : ℚ) (book : OrderBook) (cap : ℚ) (lp : Option ℚ) (o : SizedOrder)
    (hpf : preflight_ok fetch = false) (hok : sizeByBudget book cap lp = .ok o) :
    cmd_buy fetch price size =
      [Effect.preflightWarn, Effect.createOrder price size, Effect.postOrder] ∧
    cmd_buy_max book cap lp fetch =
      [Effect.preflightWarn, Effect.createOrder o.price o.size, Effect.postOrder] := by
  constructor
  · unfold cmd_buy
    rw [hpf]
    rfl
  · unfold cmd_buy_max
    rw [hok, hpf]
    rfl

theorem preflight_failure_nonblocking_witness :
    cmd_buy (some ⟨0, []⟩) (1/2) 3 =
      [Effect.preflightWarn, Effect.createOrder (1/2) 3, Effect.postOrder] ∧
    cmd_buy_max ⟨[], [], 0⟩ 1 (some (1/2)) (some ⟨0, []⟩) =
      [Effect.preflightWarn, Effect.createOrder (1/2) 2, Effect.postOrder] :=
  preflight_failure_nonblocking (some ⟨0, []⟩) (1/2) 3 ⟨[], [], 0⟩ 1 (some (1/2))
    ⟨1/2, 2, false⟩
    (by norm_num [preflight_ok, max_allowance])
    (by norm_num [sizeByBudget, effectivePrice, sizeWithPrice, finishOrder, is_marketable,
      best_order, round6, rhe])

/-- C3 counterexample: two fix-mode diagnose runs differing only in
whether the refresh call succeeds produce different recommendation lists,
and the successful-refresh run's list is not the one derived from the
pre-refresh snapshot — the snapshot is fetched after the refresh
attempt. -/
theorem diagnose_fix_post_refresh :
    cmd_diagnose true false ⟨⟨0, []⟩, ⟨5, [5]⟩, true⟩ [] ≠
      cmd_diagnose true false ⟨⟨0, []⟩, ⟨5, [5]⟩, false⟩ [] ∧
    (cmd_diagnose true false ⟨⟨0, []⟩, ⟨5, [5]⟩, true⟩ []).recommendations ≠
      some (recommendationsOf ⟨0, []⟩ false []).1 := by
  norm_num [cmd_diagnose, fetched_bal, recommendationsOf, max_allowance]
  decide

/-- C3 amended: in fix mode the recommendations and next steps are a
function of the snapshot fetched AFTER the same-run refresh attempt: two
runs agreeing on that fetched snapshot produce identical reports, and
when the refresh call fails the rules are evaluated on the unchanged
off-chain snapshot. -/
theorem diagnose_fix_uses_fetched (w w' : DiagWorld) (oc : Bool)
    (ov : List (Option ℤ)) (h : fetched_bal true w = fetched_bal true w') :
    cmd_diagnose true oc w ov = cmd_diagnose true oc w' ov ∧
    (w.refreshSucceeds = false →
      cmd_diagnose true oc w ov =
        ⟨w.offchain, some (recommendationsOf w.offchain oc ov).1,
          some (recommendationsOf w.offchain oc ov).2⟩) := by
  constructor
  · unfold cmd_diagnose
    rw [h]
  · intro hrs
    have hf : fetched_bal true w = w.offchain := by
      unfold fetched_bal
      rw [hrs]
      simp
    unfold cmd_diagnose
    rw [hf]
    rfl

theorem diagnose_fix_uses_fetched_witness :
    cmd_diagnose true false ⟨⟨1, [1]⟩, ⟨2, [2]⟩, false⟩ [] =
      cmd_diagnose true false ⟨⟨1, [1]⟩, ⟨0, []⟩, false⟩ [] ∧
    cmd_diagnose true false ⟨⟨1, [1]⟩, ⟨2, [2]⟩, false⟩ [] =
      ⟨⟨1, [1]⟩, some (recommendationsOf ⟨1, [1]⟩ false []).1,
        some (recommendationsOf ⟨1, [1]⟩ false []).2⟩ :=
  ⟨(diagnose_fix_uses_fetched ⟨⟨1, [1]⟩, ⟨2, [2]⟩, false⟩ ⟨⟨1, [1]⟩, ⟨0, []⟩, false⟩
      false [] (by norm_num [fetched_bal])).1,
    (diagnose_fix_uses_fetched ⟨⟨1, [1]⟩, ⟨2, [2]⟩, false⟩ ⟨⟨1, [1]⟩, ⟨0, []⟩, false⟩
      false [] (by norm_num [fetched_bal])).2 rfl⟩

/-- C10: the diagnose report carries the `recommendations` and
`next_steps` fields exactly when `--fix` is given; without `--fix` the
report is the bare snapshot and no recommendation rule is evaluated,
whatever the balance and allowances are. -/
theorem diagnose_fields_iff_fix (fix oc : Bool) (w : DiagWorld)
    (ov : List (Option ℤ)) :
    ((cmd_diagnose fix oc w ov).recommendations.isSome = fix) ∧
    ((cmd_diagnose fix oc w ov).nextSteps.isSome = fix) ∧
    (fix = false → cmd_diagnose fix oc w ov = ⟨w.offchain, none, none⟩) := by
  cases fix with
  | false =>
    refine ⟨rfl, rfl, fun _ => ?_⟩
    unfold cmd_diagnose fetched_bal
    simp
  | true =>
    exact ⟨rfl, rfl, fun h => Bool.noConfusion h⟩

theorem diagnose_fields_iff_fix_witness :
    ((cmd_diagnose false false ⟨⟨0, []⟩, ⟨0, []⟩, true⟩ []).recommendations.isSome =
      false) ∧
    ((cmd_diagnose false false ⟨⟨0, []⟩, ⟨0, []⟩, true⟩ []).nextSteps.isSome = false) ∧
    cmd_diagnose false false ⟨⟨0, []⟩, ⟨0, []⟩, true⟩ [] = ⟨⟨0, []⟩, none, none⟩ :=
  ⟨(diagnose_fields_iff_fix false false ⟨⟨0, []⟩, ⟨0, []⟩, true⟩ []).1,
    (diagnose_fields_iff_fix false false ⟨⟨0, []⟩, ⟨0, []⟩, true⟩ []).2.1,
    (diagnose_fields_iff_fix false false ⟨⟨0, []⟩, ⟨0, []⟩, true⟩ []).2.2 rfl⟩
